import Mathlib

/-!
# Shallow embedding of the wdart lexer (`src/lexer/tokenizer.rs`)

The tokenizer operates on Rust `&str` slices and reports consumed lengths in
UTF-8 bytes.  We model input as `List Char` and keep the byte accounting
explicit through `utf8Len` (the sum of the characters' UTF-8 sizes), so that
every length a recognizer reports is the byte length of the character prefix
it consumed, exactly as in the source.  Character classification follows
Lean's ASCII classifiers in place of Rust's Unicode ones; all properties below
are stated over inputs where the two agree.

Rust's `anyhow` errors are modelled by the enumeration `LexErr`, one
constructor per `bail!`/`?` site.  Fallible functions return `Except`.
-/

/-- Error conditions of the lexer.  The Rust code raises anyhow errors built
from messages and `std::io::ErrorKind` values; each raise site gets one
constructor.  `sliceFault` models the panic of an out-of-range or misaligned
byte slice `remaining[n..]` in the driver, and `loopLimit` is the driver
model's fuel marker, unreachable when the fuel exceeds the input length. -/
inductive LexErr where
  | unexpectedEof
  | invalidLeadingDigit
  | numericParseFailure
  | indentationOverflow
  | invalidData
  | sliceFault
  | loopLimit
  deriving DecidableEq, Repr

/-- Modelled from the spec: `TokenKind` lives in `lexer_token.rs`, which is not
among the sources; spec section 3 enumerates its variants and payloads.  The
`Number` payload is an exact decimal rational standing for the parsed `f64`. -/
inductive TokenKind where
  | Identifier (text : String)
  | Number (value : ℚ)
  | QuotedString (text : String)
  | Indentation (width : Nat)
  | Asterisk
  | Equals
  | Plus
  | Slash
  | LessThan
  | GreaterThan
  | Minus
  | Colon
  | At
  | Dot
  | CloseParen
  | CloseSquare
  | OpenParen
  | OpenSquare
  | Semicolon
  deriving DecidableEq, Repr

/-- Modelled from the spec: `Token` lives in `lexer_token.rs`, which is not
among the sources; spec section 3 gives the record
kind / column_start / column_end / row with 1-based, half-open columns. -/
structure Token where
  kind : TokenKind
  col_start : Nat
  col_end : Nat
  row : Nat
  deriving DecidableEq, Repr

/-- Modelled from the spec: `Token::new`, the positional constructor used by
the driver (`Token::new(token, col_start, col_end, row)`). -/
def Token.new (kind : TokenKind) (col_start col_end row : Nat) : Token :=
  ⟨kind, col_start, col_end, row⟩

/-- UTF-8 byte length of a character list, matching Rust `str::len` on the
string these characters spell. -/
def utf8Len (l : List Char) : Nat :=
  (l.map Char.utf8Size).sum

/-- Modelled from the spec: `helpers::take_while` (`helpers.rs` is not among
the sources).  Spec section 4.1: scan from the start and return the longest
prefix on which every character satisfies the predicate, together with its
byte length; fail with the unexpected-end-of-input condition exactly when the
input is empty at call time. -/
def take_while (l : List Char) (p : Char → Bool) : Except LexErr (List Char × Nat) :=
  if l.isEmpty then .error .unexpectedEof
  else .ok (l.takeWhile p, utf8Len (l.takeWhile p))

/-- `tokenize_ident` from tokenizer.rs: reject a leading digit, reject empty
input, otherwise take the maximal alphanumeric-or-underscore run. -/
def tokenize_ident (l : List Char) : Except LexErr (TokenKind × Nat) :=
  match l with
  | [] => .error .unexpectedEof
  | c :: _ =>
    if c.isDigit then .error .invalidLeadingDigit
    else
      match take_while l (fun ch => ch.isAlphanum || ch == '_') with
      | .error e => .error e
      | .ok (got, len_read) => .ok (.Identifier got.asString, len_read)

/-- The scan of `tokenize_number`'s `FnMut` closure: the captured `dot_seen`
flag is threaded as explicit state; a digit is always taken, a dot is taken
only while no dot has been seen, anything else stops the scan. -/
def numScan : Bool → List Char → List Char
  | _, [] => []
  | dot_seen, c :: rest =>
    if c.isDigit then c :: numScan dot_seen rest
    else if c == '.' && !dot_seen then c :: numScan true rest
    else []

/-- Modelled from the spec: the `take_while` call of `tokenize_number`, whose
predicate is the stateful closure above (`helpers.rs` is not among the
sources, so the same empty-input failure contract as `take_while` applies). -/
def take_while_num (l : List Char) : Except LexErr (List Char × Nat) :=
  if l.isEmpty then .error .unexpectedEof
  else .ok (numScan false l, utf8Len (numScan false l))

/-- Value of a digit character. -/
def digitVal (c : Char) : Nat :=
  c.toNat - 48

/-- Decimal value of a digit run. -/
def digitsToNat (l : List Char) : Nat :=
  l.foldl (fun n c => 10 * n + digitVal c) 0

/-- Modelled from the spec: Rust's `str::parse::<f64>` on the captured text,
restricted to the unsigned decimal shapes the number scan can produce
(optional integer digits, optional dot, optional fraction digits, at least
one digit overall) and returning the exact decimal value as a rational.
`none` is the parse failure the spec calls NumericParseFailure. -/
def parseDecimal (l : List Char) : Option ℚ :=
  let ip := l.takeWhile Char.isDigit
  let rest := l.drop ip.length
  match rest with
  | [] => if ip.isEmpty then none else some (digitsToNat ip : ℚ)
  | '.' :: frac =>
    if frac.all Char.isDigit then
      if ip.isEmpty && frac.isEmpty then none
      else some ((digitsToNat ip : ℚ) + (digitsToNat frac : ℚ) / 10 ^ frac.length)
    else none
  | _ => none

/-- `tokenize_number` from tokenizer.rs: scan digits with at most one dot,
then parse the captured text as a number. -/
def tokenize_number (l : List Char) : Except LexErr (TokenKind × Nat) :=
  match take_while_num l with
  | .error e => .error e
  | .ok (got, len_read) =>
    match parseDecimal got with
    | none => .error .numericParseFailure
    | some number => .ok (.Number number, len_read)

/-- `CharExtension::is_ws_without_nl` from tokenizer.rs. -/
def is_ws_without_nl (c : Char) : Bool :=
  c.isWhitespace && c != '\n'

/-- `skip_whitespace` from tokenizer.rs: 0 on empty input or when the first
character is not non-newline whitespace, otherwise the byte length of the
maximal run of non-newline whitespace. -/
def skip_whitespace (l : List Char) : Nat :=
  match l with
  | [] => 0
  | first_char :: _ =>
    if !is_ws_without_nl first_char then 0
    else
      match take_while l (fun ch => ch != '\n' && ch.isWhitespace) with
      | .ok (_, len_skipped) => len_skipped
      | .error _ => 0

/-- `capture_indentation` from tokenizer.rs: measure the maximal whitespace
run (a `take_while` failure is caught and counted as 0), then narrow the
length to `u8`, failing on overflow. -/
def capture_indentation (l : List Char) : Except LexErr (TokenKind × Nat) :=
  let length :=
    match take_while l Char.isWhitespace with
    | .ok (_, len_skipped) => len_skipped
    | .error _ => 0
  if length ≤ 255 then .ok (.Indentation length, length)
  else .error .indentationOverflow

/-- `tokenize_single_token` from tokenizer.rs.  The Rust match arm
`c @ '_' | c if c.is_alphabetic()` places the guard on both alternatives of
the or-pattern, so the arm is taken exactly when `c.is_alphabetic()` holds;
the model reproduces that with the single `c.isAlpha` test. -/
def tokenize_single_token (l : List Char) : Except LexErr (TokenKind × Nat) :=
  match l with
  | [] => .error .unexpectedEof
  | next :: rest =>
    if next == '*' then .ok (.Asterisk, 1)
    else if next == '=' then .ok (.Equals, 1)
    else if next == '+' then .ok (.Plus, 1)
    else if next == '/' then .ok (.Slash, 1)
    else if next == '<' then .ok (.LessThan, 1)
    else if next == '>' then .ok (.GreaterThan, 1)
    else if next == '-' then .ok (.Minus, 1)
    else if next == ':' then .ok (.Colon, 1)
    else if next == '@' then .ok (.At, 1)
    else if next == '.' then .ok (.Dot, 1)
    else if next == ')' then .ok (.CloseParen, 1)
    else if next == ']' then .ok (.CloseSquare, 1)
    else if next == '(' then .ok (.OpenParen, 1)
    else if next == '[' then .ok (.OpenSquare, 1)
    else if next == ';' then .ok (.Semicolon, 1)
    else if next.isDigit then tokenize_number l
    else if next == '"' then
      match take_while rest (fun ch => ch != '"') with
      | .error e => .error e
      | .ok (got, len_read) => .ok (.QuotedString got.asString, len_read + 2)
    else if next.isAlpha then tokenize_ident l
    else if next == '\n' then capture_indentation l
    else .error .invalidData

/-- Drop `n` BYTES from a character list, the model of the Rust slice
`&s[n..]`: `none` when `n` overruns the input or falls inside a character's
UTF-8 encoding, which in Rust is a panic. -/
def dropBytes : Nat → List Char → Option (List Char)
  | 0, l => some l
  | _ + 1, [] => none
  | n + 1, c :: rest =>
    if c.utf8Size ≤ n + 1 then dropBytes (n + 1 - c.utf8Size) rest
    else none

/-- Is this token an `Indentation` token? (the driver's match on the produced
kind). -/
def TokenKind.isInd : TokenKind → Bool
  | .Indentation _ => true
  | _ => false

/-- One pass of the `lex` loop from tokenizer.rs, with fuel standing in for
the Rust `loop`.  Each iteration: skip inline whitespace unless at line
start, stop on empty input, tokenize once, update row/column bookkeeping
(an indentation token starts a new row at column 1), emit the token, and
advance past the consumed bytes. -/
def lexAux : Nat → List Char → Nat → Nat → Bool → Except LexErr (List Token)
  | 0, _, _, _, _ => .error .loopLimit
  | fuel + 1, remaining0, row, col_start0, is_line_start =>
    let ws := if is_line_start then 0 else skip_whitespace remaining0
    match dropBytes ws remaining0 with
    | none => .error .sliceFault
    | some remaining =>
      let col_start := col_start0 + ws
      if remaining.isEmpty then .ok []
      else
        match tokenize_single_token remaining with
        | .error e => .error e
        | .ok (token, len_read) =>
          let row' := if token.isInd then row + 1 else row
          let cs := if token.isInd then 1 else col_start
          let col_end := cs + len_read
          match dropBytes len_read remaining with
          | none => .error .sliceFault
          | some remaining' =>
            match lexAux fuel remaining' row' col_end token.isInd with
            | .error e => .error e
            | .ok tokens => .ok (Token.new token cs col_end row' :: tokens)

/-- `lex` from tokenizer.rs: run the loop from row 1, column 1, in line-start
mode.  The fuel `length + 1` is enough for any run that terminates, since
every successful iteration consumes at least one character. -/
def lex (input : List Char) : Except LexErr (List Token) :=
  lexAux (input.length + 1) input 1 1 true

/-- Total whitespace (in bytes) skipped by the driver between tokens: the
same traversal as `lexAux`, accumulating the skip amounts.  Only meaningful
on runs where `lexAux` succeeds. -/
def wsSkippedAux : Nat → List Char → Bool → Nat
  | 0, _, _ => 0
  | fuel + 1, remaining0, is_line_start =>
    let ws := if is_line_start then 0 else skip_whitespace remaining0
    match dropBytes ws remaining0 with
    | none => 0
    | some remaining =>
      if remaining.isEmpty then ws
      else
        match tokenize_single_token remaining with
        | .error _ => 0
        | .ok (token, len_read) =>
          match dropBytes len_read remaining with
          | none => 0
          | some remaining' => ws + wsSkippedAux fuel remaining' token.isInd

/-- Total whitespace skipped over a whole `lex` run. -/
def wsSkipped (input : List Char) : Nat :=
  wsSkippedAux (input.length + 1) input true

/-- Sum of the tokens' consumed byte lengths, read back from the half-open
column spans the driver assigns (`col_end = col_start + len_read`). -/
def sumSpans (tokens : List Token) : Nat :=
  (tokens.map (fun t => t.col_end - t.col_start)).sum

/-- The shape the spec ascribes to a number scan: the maximal leading digit
run, then, when a dot follows it, that single dot and the maximal digit run
after it.  Proved equal to `numScan false` below, which shows the stateful
closure accepts at most one dot and that a second dot terminates the run. -/
def digitsDotDigits (l : List Char) : List Char :=
  if (l.drop (l.takeWhile Char.isDigit).length).head? = some '.' then
    l.takeWhile Char.isDigit ++
      '.' :: (l.drop (l.takeWhile Char.isDigit).length).tail.takeWhile Char.isDigit
  else l.takeWhile Char.isDigit

/-! ## Basic byte-length lemmas -/

theorem utf8Len_nil : utf8Len [] = 0 := rfl

theorem utf8Len_cons (c : Char) (l : List Char) :
    utf8Len (c :: l) = c.utf8Size + utf8Len l := by
  simp [utf8Len]

theorem utf8Len_append (l₁ l₂ : List Char) :
    utf8Len (l₁ ++ l₂) = utf8Len l₁ + utf8Len l₂ := by
  simp [utf8Len]

theorem utf8Len_takeWhile_le (p : Char → Bool) (l : List Char) :
    utf8Len (l.takeWhile p) ≤ utf8Len l := by
  conv_rhs => rw [← List.takeWhile_append_dropWhile p l]
  rw [utf8Len_append]
  exact Nat.le_add_right _ _

theorem utf8Len_numScan_le : ∀ (s : Bool) (l : List Char),
    utf8Len (numScan s l) ≤ utf8Len l := by
  intro s l
  induction l generalizing s with
  | nil => simp [numScan]
  | cons c rest ih =>
    rw [numScan]
    by_cases hd : c.isDigit
    · simp only [hd, if_true, utf8Len_cons]
      exact Nat.add_le_add_left (ih s) _
    · simp only [hd, if_false, Bool.false_eq_true]
      by_cases hdot : (c == '.' && !s) = true
      · simp only [hdot, if_true, utf8Len_cons]
        exact Nat.add_le_add_left (ih true) _
      · simp only [hdot, if_false, Bool.false_eq_true, utf8Len_nil]
        exact Nat.zero_le _

theorem utf8Len_takeWhile_succ_le (p : Char → Bool) :
    ∀ (l : List Char), (∃ a ∈ l, p a = false) →
      utf8Len (l.takeWhile p) + 1 ≤ utf8Len l := by
  intro l
  induction l with
  | nil => rintro ⟨a, ha, _⟩; simp at ha
  | cons c rest ih =>
    rintro ⟨a, ha, hpa⟩
    rw [List.takeWhile_cons]
    by_cases hc : p c = true
    · have hne : a ≠ c := by rintro rfl; rw [hc] at hpa; cases hpa
      have := ih ⟨a, by rcases List.mem_cons.mp ha with h | h; exact absurd h hne; exact h, hpa⟩
      simp only [hc, if_true, utf8Len_cons]
      omega
    · simp only [hc, if_false, Bool.false_eq_true, utf8Len_nil, utf8Len_cons]
      have := Char.utf8Size_pos c
      omega

theorem dropBytes_utf8Len : ∀ (l : List Char) (n : Nat) (l' : List Char),
    dropBytes n l = some l' → utf8Len l = n + utf8Len l' := by
  intro l
  induction l with
  | nil =>
    intro n l' h
    cases n with
    | zero => simp [dropBytes] at h; subst h; omega
    | succ n => simp [dropBytes] at h
  | cons c rest ih =>
    intro n l' h
    cases n with
    | zero => simp [dropBytes] at h; subst h; omega
    | succ n =>
      rw [dropBytes] at h
      split at h
      · have := ih _ _ h
        rw [utf8Len_cons, this]
        omega
      · cases h

/-! ## The number scan: one dot at most -/

theorem numScan_true_eq : ∀ l : List Char, numScan true l = l.takeWhile Char.isDigit := by
  intro l
  induction l with
  | nil => rfl
  | cons c rest ih =>
    rw [numScan, List.takeWhile_cons]
    by_cases hd : c.isDigit
    · simp [hd, ih]
    · simp [hd]

theorem numScan_false_eq : ∀ l : List Char, numScan false l = digitsDotDigits l := by
  intro l
  induction l with
  | nil => rfl
  | cons c rest ih =>
    by_cases hd : c.isDigit
    · have hstep : digitsDotDigits (c :: rest) = c :: digitsDotDigits rest := by
        unfold digitsDotDigits
        simp only [List.takeWhile_cons, hd, if_true, List.length_cons, List.drop_succ_cons]
        split
        next => simp
        next => rfl
      rw [numScan]
      simp only [hd, if_true]
      rw [ih, hstep]
    · by_cases hdot : c = '.'
      · subst hdot
        have h1 : ('.' : Char).isDigit = false := rfl
        rw [numScan]
        unfold digitsDotDigits
        simp [h1, numScan_true_eq]
      · rw [numScan]
        unfold digitsDotDigits
        simp [List.takeWhile_cons, hd, hdot]

theorem numScan_false_dots (l : List Char) :
    ((numScan false l).filter (fun c => c == '.')).length ≤ 1 := by
  rw [numScan_false_eq]
  unfold digitsDotDigits
  have hip : ∀ m : List Char, (m.takeWhile Char.isDigit).filter (fun c => c == '.') = [] := by
    intro m
    rw [List.filter_eq_nil_iff]
    intro a ha hb
    have hdig := List.mem_takeWhile_imp ha
    rw [beq_iff_eq] at hb
    subst hb
    exact absurd hdig (by decide)
  by_cases hh : (l.drop (l.takeWhile Char.isDigit).length).head? = some '.'
  · rw [if_pos hh, List.filter_append, hip]
    simp [List.filter_cons, hip]
  · rw [if_neg hh, hip]
    simp

theorem tokenize_number_len (l : List Char) (k : TokenKind) (n : Nat)
    (h : tokenize_number l = .ok (k, n)) : n = utf8Len (numScan false l) := by
  unfold tokenize_number at h
  split at h
  · exact absurd h (by simp)
  · rename_i got len heq
    unfold take_while_num at heq
    split at heq
    · exact absurd heq (by simp)
    · rw [Except.ok.injEq, Prod.mk.injEq] at heq
      obtain ⟨hgot, hlen⟩ := heq
      split at h
      · exact absurd h (by simp)
      · rw [Except.ok.injEq, Prod.mk.injEq] at h
        omega

/-! ## Recognizer length lemmas -/

theorem tokenize_ident_len (l : List Char) (k : TokenKind) (n : Nat)
    (h : tokenize_ident l = .ok (k, n)) :
    n = utf8Len (l.takeWhile (fun ch => ch.isAlphanum || ch == '_')) := by
  cases l with
  | nil => exact absurd h (by simp [tokenize_ident])
  | cons c rest =>
    rw [tokenize_ident] at h
    split at h
    · exact absurd h (by simp)
    · split at h
      · exact absurd h (by simp)
      · rename_i got len heq
        unfold take_while at heq
        split at heq
        · exact absurd heq (by simp)
        · rw [Except.ok.injEq, Prod.mk.injEq] at heq
          rw [Except.ok.injEq, Prod.mk.injEq] at h
          omega

theorem capture_indentation_len (l : List Char) (k : TokenKind) (n : Nat)
    (h : capture_indentation l = .ok (k, n)) : n ≤ utf8Len l := by
  cases l with
  | nil =>
    have hnil : capture_indentation [] = .ok (.Indentation 0, 0) := rfl
    rw [hnil, Except.ok.injEq, Prod.mk.injEq] at h
    obtain ⟨-, h2⟩ := h
    omega
  | cons c rest =>
    have htw : take_while (c :: rest) Char.isWhitespace =
        .ok ((c :: rest).takeWhile Char.isWhitespace,
             utf8Len ((c :: rest).takeWhile Char.isWhitespace)) := by
      rw [take_while]
      simp
    unfold capture_indentation at h
    rw [htw] at h
    dsimp only at h
    split at h
    · rw [Except.ok.injEq, Prod.mk.injEq] at h
      obtain ⟨-, h2⟩ := h
      rw [← h2]
      exact utf8Len_takeWhile_le _ _
    · exact absurd h (by simp)

theorem takeWhile_append_stop (p : Char → Bool) :
    ∀ (pre post : List Char) (q : Char), (∀ x ∈ pre, p x = true) → p q = false →
      (pre ++ q :: post).takeWhile p = pre := by
  intro pre
  induction pre with
  | nil =>
    intro post q _ hq
    simp [List.takeWhile_cons, hq]
  | cons c cs ih =>
    intro post q hpre hq
    have hc : p c = true := hpre c (by simp)
    simp only [List.cons_append, List.takeWhile_cons, hc, if_true]
    rw [ih post q (fun x hx => hpre x (by simp [hx])) hq]

theorem ws_char_utf8Size (c : Char) (h : c.isWhitespace = true) : c.utf8Size = 1 := by
  simp only [Char.isWhitespace, Bool.or_eq_true, decide_eq_true_eq] at h
  rcases h with ((rfl | rfl) | rfl) | rfl <;> rfl

theorem utf8Len_eq_length (l : List Char) (h : ∀ c ∈ l, c.utf8Size = 1) :
    utf8Len l = l.length := by
  induction l with
  | nil => rfl
  | cons c rest ih =>
    rw [utf8Len_cons, h c (by simp), List.length_cons,
        ih (fun x hx => h x (by simp [hx]))]
    omega

theorem bool_and_left {a b : Bool} (h : (a && b) = true) : a = true := by
  cases a <;> simp_all

theorem bool_and_right {a b : Bool} (h : (a && b) = true) : b = true := by
  cases a <;> cases b <;> simp_all

theorem take_length_takeWhile (p : Char → Bool) (l : List Char) :
    l.take (l.takeWhile p).length = l.takeWhile p := by
  induction l with
  | nil => rfl
  | cons c rest ih =>
    rw [List.takeWhile_cons]
    by_cases h : p c = true
    · simp [h, ih]
    · simp [h]

/-! ## Driver bookkeeping lemmas -/

theorem sumSpans_nil : sumSpans [] = 0 := rfl

theorem sumSpans_cons (t : Token) (ts : List Token) :
    sumSpans (t :: ts) = (t.col_end - t.col_start) + sumSpans ts := by
  simp [sumSpans]

theorem lexAux_accounting :
    ∀ (fuel : Nat) (rem : List Char) (row cs : Nat) (ils : Bool) (toks : List Token),
      lexAux fuel rem row cs ils = .ok toks →
      sumSpans toks + wsSkippedAux fuel rem ils = utf8Len rem := by
  intro fuel
  induction fuel with
  | zero =>
    intro rem row cs ils toks h
    exact absurd h (by simp [lexAux])
  | succ fuel ih =>
    intro rem row cs ils toks h
    simp only [lexAux] at h
    simp only [wsSkippedAux]
    split at h
    next heq =>
      exact absurd h (by simp)
    next remaining heq =>
      have e1 := dropBytes_utf8Len _ _ _ heq
      split at h
      next hemp =>
        rw [Except.ok.injEq] at h
        subst h
        rw [if_pos hemp, sumSpans_nil]
        rw [List.isEmpty_iff] at hemp
        subst hemp
        rw [utf8Len_nil] at e1
        omega
      next hemp =>
        rw [if_neg hemp]
        split at h
        next => exact absurd h (by simp)
        next token len_read htok =>
          split at h
          next => exact absurd h (by simp)
          next rem' hdrop2 =>
            have e2 := dropBytes_utf8Len _ _ _ hdrop2
            split at h
            next => exact absurd h (by simp)
            next toks' hrec =>
              rw [Except.ok.injEq] at h
              subst h
              have hIH := ih rem' _ _ _ toks' hrec
              rw [sumSpans_cons]
              simp only [Token.new]
              omega

/-! ## Claim theorems -/

/-- C1: the whitespace skipper never consumes a newline — every character of
the skipped prefix differs from a newline — and on the spec's examples it
returns 2 for " \t\n\r123" (stopping at the newline), 0 for "Hello World",
and 0 for the empty string. -/
theorem skip_whitespace_stops_at_newline :
    (∀ l : List Char, (l.take (skip_whitespace l)).all (fun ch => ch != '\n') = true) ∧
    skip_whitespace " \t\n\r123".toList = 2 ∧
    skip_whitespace "Hello World".toList = 0 ∧
    skip_whitespace "".toList = 0 := by
  refine ⟨?_, rfl, rfl, rfl⟩
  intro l
  cases l with
  | nil => rfl
  | cons c rest =>
    rw [skip_whitespace]
    by_cases hc : is_ws_without_nl c = true
    · rw [take_while]
      simp only [hc, Bool.not_true, Bool.false_eq_true, if_false, List.isEmpty_cons]
      have hall : ∀ x ∈ (c :: rest).takeWhile (fun ch => ch != '\n' && ch.isWhitespace),
          (x != '\n' && x.isWhitespace) = true :=
        fun x hx =>
          @List.mem_takeWhile_imp Char (fun ch => ch != '\n' && ch.isWhitespace) (c :: rest) x hx
      have hsz : ∀ x ∈ (c :: rest).takeWhile (fun ch => ch != '\n' && ch.isWhitespace),
          x.utf8Size = 1 :=
        fun x hx => ws_char_utf8Size x (bool_and_right (hall x hx))
      rw [utf8Len_eq_length _ hsz, take_length_takeWhile]
      exact List.all_eq_true.mpr fun x hx => bool_and_left (hall x hx)
    · rw [Bool.not_eq_true] at hc
      simp [hc]

/-- C2 (exhibit of the code bug): every input whose first character is an
underscore is rejected by the dispatcher with the unrecognized-character
error — the Rust guard `if c.is_alphabetic()` covers both alternatives of
`c @ '_' | c`, and '_' is not alphabetic — even though the identifier
recognizer itself accepts such input, as the second conjunct shows. -/
theorem underscore_rejected_by_dispatcher :
    (∀ l : List Char, tokenize_single_token ('_' :: l) = .error .invalidData) ∧
    tokenize_ident ('_' :: "foo".toList) = .ok (.Identifier "_foo", 4) :=
  ⟨fun _ => rfl, rfl⟩

/-- C3 counterexample: the full scan of ".Foo_bar" does not fail — `lex`
returns a token sequence, refuting the claim that it returns a lexical
failure. -/
theorem lex_dot_foo_bar_is_ok : (lex ".Foo_bar".toList).isOk = true := rfl

/-- C3 (amended): lex ".Foo_bar" succeeds: the dispatcher maps the leading
dot to the Dot punctuation token (1 byte), followed by Identifier "Foo_bar"
at columns 2–9 of row 1. -/
theorem lex_dot_foo_bar_tokens :
    lex ".Foo_bar".toList =
      .ok [Token.new .Dot 1 2 1, Token.new (.Identifier "Foo_bar") 2 9 1] := rfl

/-- C9: lex "F" succeeds with exactly one token, Identifier "F", at row 1,
columns 1–2 (1-based, half-open). -/
theorem lex_single_letter :
    lex "F".toList = .ok [Token.new (.Identifier "F") 1 2 1] := rfl

/-- C4: byte accounting — whenever `lex` succeeds, the sum of the tokens'
consumed byte lengths (their half-open column spans) plus the bytes of the
whitespace runs skipped between tokens equals the input's byte length. -/
theorem lex_byte_accounting (input : List Char) (tokens : List Token)
    (h : lex input = .ok tokens) :
    sumSpans tokens + wsSkipped input = utf8Len input :=
  lexAux_accounting (input.length + 1) input 1 1 true tokens h

/-- Witness for C4 at the concrete input "a b" (two identifier tokens of one
byte each, one skipped space). -/
theorem lex_byte_accounting_witness :
    sumSpans [Token.new (.Identifier "a") 1 2 1, Token.new (.Identifier "b") 3 4 1] +
      wsSkipped "a b".toList = utf8Len "a b".toList :=
  lex_byte_accounting "a b".toList
    [Token.new (.Identifier "a") 1 2 1, Token.new (.Identifier "b") 3 4 1] rfl

/-- C5: the number recognizer's scan is exactly "maximal digit run, then at
most one dot followed by a maximal digit run" (first conjunct), so the
captured text holds at most one dot (second conjunct); on success the
reported consumed length is that run's byte length (third conjunct); and
"12.3.456" produces Number(12.3) — the exact rational 123/10 — consuming
exactly 4 bytes (fourth conjunct). -/
theorem tokenize_number_one_dot :
    (∀ l : List Char, numScan false l = digitsDotDigits l) ∧
    (∀ l : List Char, ((numScan false l).filter (fun ch => ch == '.')).length ≤ 1) ∧
    (∀ (l : List Char) (k : TokenKind) (n : Nat), tokenize_number l = .ok (k, n) →
      n = utf8Len (digitsDotDigits l)) ∧
    tokenize_number "12.3.456".toList = .ok (.Number ((123 : ℚ) / 10), 4) := by
  refine ⟨numScan_false_eq, numScan_false_dots, ?_, ?_⟩
  · intro l k n h
    rw [← numScan_false_eq]
    exact tokenize_number_len l k n h
  · have hstep : tokenize_number "12.3.456".toList =
        .ok (.Number (((12 : ℕ) : ℚ) + ((3 : ℕ) : ℚ) / 10 ^ 1), 4) := rfl
    have hval : ((12 : ℕ) : ℚ) + ((3 : ℕ) : ℚ) / 10 ^ 1 = (123 : ℚ) / 10 := by
      norm_num
    rw [hstep, hval]

/-- Witness for C5 at the concrete input "12.3.456": the recognizer's
reported length 4 is the byte length of the digits-dot-digits run. -/
theorem tokenize_number_one_dot_witness :
    (4 : Nat) = utf8Len (digitsDotDigits "12.3.456".toList) :=
  tokenize_number_one_dot.2.2.1 "12.3.456".toList
    (.Number (((12 : ℕ) : ℚ) + ((3 : ℕ) : ℚ) / 10 ^ 1)) 4 rfl

/-- C6: on any input whose first character is a newline, the indentation
recognizer measures the byte length L of the maximal whitespace run
(newlines included): when L is at most 255 it produces Indentation(L)
consuming exactly L bytes, and when L exceeds 255 it fails with the
indentation-overflow error. -/
theorem capture_indentation_newline (l : List Char) (h : l.head? = some '\n') :
    (utf8Len (l.takeWhile Char.isWhitespace) ≤ 255 →
      capture_indentation l =
        .ok (.Indentation (utf8Len (l.takeWhile Char.isWhitespace)),
             utf8Len (l.takeWhile Char.isWhitespace))) ∧
    (255 < utf8Len (l.takeWhile Char.isWhitespace) →
      capture_indentation l = .error .indentationOverflow) := by
  cases l with
  | nil => cases h
  | cons c rest =>
    have htw : take_while (c :: rest) Char.isWhitespace =
        .ok ((c :: rest).takeWhile Char.isWhitespace,
             utf8Len ((c :: rest).takeWhile Char.isWhitespace)) := by
      rw [take_while]
      simp
    constructor
    · intro hle
      unfold capture_indentation
      rw [htw]
      dsimp only
      rw [if_pos hle]
    · intro hgt
      unfold capture_indentation
      rw [htw]
      dsimp only
      rw [if_neg (by omega)]

/-- Witness for C6 at the concrete input of a newline and two spaces before
a letter: the whitespace run has length 3 ≤ 255, so Indentation(3) is
produced consuming 3 bytes. -/
theorem capture_indentation_newline_witness :
    capture_indentation "\n  x".toList = .ok (.Indentation 3, 3) :=
  (capture_indentation_newline "\n  x".toList rfl).1 (by decide)

/-- C7: on input made of an opening quote, quote-free text, a closing quote
and anything after, the dispatcher produces QuotedString of exactly the text
between the opening quote and the first subsequent quote, reporting the
inner byte length plus 2 as consumed. -/
theorem quoted_string_between_quotes (pre post : List Char) (hpre : '"' ∉ pre) :
    tokenize_single_token ('"' :: (pre ++ '"' :: post)) =
      .ok (.QuotedString pre.asString, utf8Len pre + 2) := by
  have step : tokenize_single_token ('"' :: (pre ++ '"' :: post)) =
      match take_while (pre ++ '"' :: post) (fun ch => ch != '"') with
      | .error e => .error e
      | .ok (got, len_read) => .ok (.QuotedString got.asString, len_read + 2) := rfl
  have htake : (pre ++ '"' :: post).takeWhile (fun ch => ch != '"') = pre :=
    takeWhile_append_stop _ pre post '"'
      (fun x hx => by
        have hne : x ≠ '"' := fun e => hpre (e ▸ hx)
        simp [hne])
      (by decide)
  have hne : (pre ++ '"' :: post).isEmpty = false := by
    cases pre <;> rfl
  rw [step, take_while, hne]
  simp only [Bool.false_eq_true, if_false]
  rw [htake]

/-- Witness for C7 at the concrete input quote-a-b-quote-c-d: inner text
"ab", consumed length 4. -/
theorem quoted_string_between_quotes_witness :
    tokenize_single_token ('"' :: ("ab".toList ++ '"' :: "cd".toList)) =
      .ok (.QuotedString "ab", 4) :=
  quoted_string_between_quotes "ab".toList "cd".toList (by decide)

/-- C8: the identifier recognizer fails with the unexpected-end-of-input
error on empty input, fails with the leading-digit error whenever the first
character is a decimal digit, and otherwise succeeds with Identifier of the
maximal alphanumeric-or-underscore prefix, consuming exactly that prefix's
byte length. -/
theorem tokenize_ident_spec :
    tokenize_ident [] = .error .unexpectedEof ∧
    (∀ (c : Char) (l : List Char), c.isDigit = true →
      tokenize_ident (c :: l) = .error .invalidLeadingDigit) ∧
    (∀ (c : Char) (l : List Char), c.isDigit = false →
      tokenize_ident (c :: l) =
        .ok (.Identifier
              (((c :: l).takeWhile (fun ch => ch.isAlphanum || ch == '_')).asString),
             utf8Len ((c :: l).takeWhile (fun ch => ch.isAlphanum || ch == '_')))) := by
  refine ⟨rfl, ?_, ?_⟩
  · intro c l h
    simp [tokenize_ident, h]
  · intro c l h
    rw [tokenize_ident]
    simp only [h, Bool.false_eq_true, if_false]
    rw [take_while]
    simp

/-- Witness for C8: a digit-led input fails with the leading-digit error,
and a letter-led input returns the full identifier run with its length. -/
theorem tokenize_ident_spec_witness :
    tokenize_ident ('7' :: "Foo_bar".toList) = .error .invalidLeadingDigit ∧
    tokenize_ident ('F' :: "oo_bar".toList) = .ok (.Identifier "Foo_bar", 7) :=
  ⟨tokenize_ident_spec.2.1 '7' "Foo_bar".toList (by decide),
   tokenize_ident_spec.2.2 'F' "oo_bar".toList (by decide)⟩

theorem tokenize_single_token_cons (c : Char) (rest : List Char) :
    tokenize_single_token (c :: rest) =
      (if c == '*' then .ok (.Asterisk, 1)
       else if c == '=' then .ok (.Equals, 1)
       else if c == '+' then .ok (.Plus, 1)
       else if c == '/' then .ok (.Slash, 1)
       else if c == '<' then .ok (.LessThan, 1)
       else if c == '>' then .ok (.GreaterThan, 1)
       else if c == '-' then .ok (.Minus, 1)
       else if c == ':' then .ok (.Colon, 1)
       else if c == '@' then .ok (.At, 1)
       else if c == '.' then .ok (.Dot, 1)
       else if c == ')' then .ok (.CloseParen, 1)
       else if c == ']' then .ok (.CloseSquare, 1)
       else if c == '(' then .ok (.OpenParen, 1)
       else if c == '[' then .ok (.OpenSquare, 1)
       else if c == ';' then .ok (.Semicolon, 1)
       else if c.isDigit then tokenize_number (c :: rest)
       else if c == '"' then
         match take_while rest (fun ch => ch != '"') with
         | .error e => .error e
         | .ok (got, len_read) => .ok (.QuotedString got.asString, len_read + 2)
       else if c.isAlpha then tokenize_ident (c :: rest)
       else if c == '\n' then capture_indentation (c :: rest)
       else .error .invalidData) := rfl

/-- C10 counterexample: on an opening quote with no closing quote,
tokenize_single_token succeeds yet reports 5 consumed bytes on a 4-byte
input, so the driver's slice advance overruns the remaining input (in Rust,
`&remaining[5..]` on a 4-byte slice panics). -/
theorem unterminated_quote_overruns :
    tokenize_single_token "\"abc".toList = .ok (.QuotedString "abc", 5) ∧
    utf8Len "\"abc".toList = 4 :=
  ⟨rfl, rfl⟩

/-- C10 (amended): for every non-empty input on which tokenize_single_token
succeeds, the reported consumed length is at most the input's byte length,
PROVIDED the input is not an opening quote without a closing quote (when the
first character is '"', a second '"' must occur in the rest); the
unterminated-quote case is excluded, since there the recognizer reports one
byte more than the input holds. -/
theorem consumed_le_input (c : Char) (rest : List Char) (k : TokenKind) (n : Nat)
    (h : tokenize_single_token (c :: rest) = .ok (k, n))
    (hq : c = '"' → '"' ∈ rest) :
    n ≤ utf8Len (c :: rest) := by
  have hpos := Char.utf8Size_pos c
  have hcons := utf8Len_cons c rest
  rw [tokenize_single_token_cons] at h
  by_cases h1 : (c == '*') = true
  · rw [if_pos h1, Except.ok.injEq, Prod.mk.injEq] at h
    obtain ⟨-, hn⟩ := h
    omega
  rw [if_neg h1] at h
  by_cases h2 : (c == '=') = true
  · rw [if_pos h2, Except.ok.injEq, Prod.mk.injEq] at h
    obtain ⟨-, hn⟩ := h
    omega
  rw [if_neg h2] at h
  by_cases h3 : (c == '+') = true
  · rw [if_pos h3, Except.ok.injEq, Prod.mk.injEq] at h
    obtain ⟨-, hn⟩ := h
    omega
  rw [if_neg h3] at h
  by_cases h4 : (c == '/') = true
  · rw [if_pos h4, Except.ok.injEq, Prod.mk.injEq] at h
    obtain ⟨-, hn⟩ := h
    omega
  rw [if_neg h4] at h
  by_cases h5 : (c == '<') = true
  · rw [if_pos h5, Except.ok.injEq, Prod.mk.injEq] at h
    obtain ⟨-, hn⟩ := h
    omega
  rw [if_neg h5] at h
  by_cases h6 : (c == '>') = true
  · rw [if_pos h6, Except.ok.injEq, Prod.mk.injEq] at h
    obtain ⟨-, hn⟩ := h
    omega
  rw [if_neg h6] at h
  by_cases h7 : (c == '-') = true
  · rw [if_pos h7, Except.ok.injEq, Prod.mk.injEq] at h
    obtain ⟨-, hn⟩ := h
    omega
  rw [if_neg h7] at h
  by_cases h8 : (c == ':') = true
  · rw [if_pos h8, Except.ok.injEq, Prod.mk.injEq] at h
    obtain ⟨-, hn⟩ := h
    omega
  rw [if_neg h8] at h
  by_cases h9 : (c == '@') = true
  · rw [if_pos h9, Except.ok.injEq, Prod.mk.injEq] at h
    obtain ⟨-, hn⟩ := h
    omega
  rw [if_neg h9] at h
  by_cases h10 : (c == '.') = true
  · rw [if_pos h10, Except.ok.injEq, Prod.mk.injEq] at h
    obtain ⟨-, hn⟩ := h
    omega
  rw [if_neg h10] at h
  by_cases h11 : (c == ')') = true
  · rw [if_pos h11, Except.ok.injEq, Prod.mk.injEq] at h
    obtain ⟨-, hn⟩ := h
    omega
  rw [if_neg h11] at h
  by_cases h12 : (c == ']') = true
  · rw [if_pos h12, Except.ok.injEq, Prod.mk.injEq] at h
    obtain ⟨-, hn⟩ := h
    omega
  rw [if_neg h12] at h
  by_cases h13 : (c == '(') = true
  · rw [if_pos h13, Except.ok.injEq, Prod.mk.injEq] at h
    obtain ⟨-, hn⟩ := h
    omega
  rw [if_neg h13] at h
  by_cases h14 : (c == '[') = true
  · rw [if_pos h14, Except.ok.injEq, Prod.mk.injEq] at h
    obtain ⟨-, hn⟩ := h
    omega
  rw [if_neg h14] at h
  by_cases h15 : (c == ';') = true
  · rw [if_pos h15, Except.ok.injEq, Prod.mk.injEq] at h
    obtain ⟨-, hn⟩ := h
    omega
  rw [if_neg h15] at h
  by_cases h16 : c.isDigit = true
  · rw [if_pos h16] at h
    have hlen := tokenize_number_len _ _ _ h
    have hle := utf8Len_numScan_le false (c :: rest)
    omega
  rw [if_neg h16] at h
  by_cases h17 : (c == '"') = true
  · have hc : c = '"' := by rwa [beq_iff_eq] at h17
    have hmem := hq hc
    cases rest with
    | nil => simp at hmem
    | cons d ds =>
      rw [if_pos h17, take_while] at h
      simp only [List.isEmpty_cons, Bool.false_eq_true, if_false] at h
      rw [Except.ok.injEq, Prod.mk.injEq] at h
      obtain ⟨-, hn⟩ := h
      have hs := utf8Len_takeWhile_succ_le (fun ch => ch != '"') (d :: ds)
        ⟨'"', hmem, by decide⟩
      have hq1 : ('"' : Char).utf8Size = 1 := rfl
      subst hc
      omega
  rw [if_neg h17] at h
  by_cases h18 : c.isAlpha = true
  · rw [if_pos h18] at h
    have hlen := tokenize_ident_len _ _ _ h
    have hle := utf8Len_takeWhile_le (fun ch => ch.isAlphanum || ch == '_') (c :: rest)
    omega
  rw [if_neg h18] at h
  by_cases h19 : (c == '\n') = true
  · rw [if_pos h19] at h
    exact capture_indentation_len _ _ _ h
  rw [if_neg h19] at h
  exact absurd h (by simp)

/-- Witness for C10 (amended) at a properly closed quoted string: the
consumed length 3 is bounded by the input's 3 bytes. -/
theorem consumed_le_input_witness :
    (3 : Nat) ≤ utf8Len ('"' :: "a\"".toList) :=
  consumed_le_input '"' "a\"".toList (.QuotedString "a") 3 rfl (fun _ => by decide)
